import Mathlib

/-!
Shallow embedding of the sliding-window-counter rate limiter in
`pkg/limiter/limiter.go`, together with the registry behaviour of
`AllowRequest` and a small interleaving model of the registry access
pattern used by concurrent callers.

Modelling conventions:
* `time.Time` values are integers counting nanoseconds since the Go zero
  time (`time.Time{}`), so the zero `time.Time` is `0`.
* `time.Duration` values are integer nanosecond counts.
* `time.Time.Truncate` rounds a time down to a multiple of the unit; for a
  positive unit this is `t - t % u` with the Euclidean remainder.
* Go `int64` counters are modelled as `Int`; the counters grow by at most
  one per processed request, so wrap-around is not modelled.
-/

namespace Bkp1

/-- Rule from `limiter.go`: max requests per unit of time; `unit` is a
`time.Duration` in nanoseconds. -/
structure Rule where
  maxRequests : Int
  unit : Int
  deriving DecidableEq

/-- AddRule from `limiter.go`: the Go function unconditionally overwrites
the global `rule` cache with the new rule, performs no validation, and
returns nothing.  Its whole effect is the new value of the global `rule`
variable, so it is embedded as a map from the prior value of that variable
to the new one. -/
def AddRule (maxRequests : Int) (unit : Int) (_prior : Option Rule) : Option Rule :=
  some { maxRequests := maxRequests, unit := unit }

/-- Go `time.Time.Truncate` for a positive unit: round `t` down to a
multiple of `u` since the zero time. -/
def truncate (t u : Int) : Int := t - t % u

/-- Limiter from `limiter.go`: the per-client sliding-window counter state.
The `sync.Mutex` field only serialises access and carries no data, so it
has no counterpart in the embedding. -/
structure Limiter where
  prevWindow : Int
  prevCounter : Int
  currWindow : Int
  currCounter : Int
  deriving DecidableEq

/-- The freshly allocated `&Limiter{}`: all fields zero (the zero
`time.Time` is `0`). -/
def Limiter.init : Limiter := ⟨0, 0, 0, 0⟩

/-- The locked section of `Limiter.Allow`: move the window pair forward to
the window containing `now`.  Mirrors the three branches of the Go code:
same window (increment), moved exactly one window (roll current into
previous), moved more than one window (discard previous).  In the Go
source `newCurrWindow = now.Truncate(rule.unit)` and
`newPrevWindow = newCurrWindow.Add(-rule.unit)`; both are inlined here. -/
def Limiter.advance (l : Limiter) (r : Rule) (now : Int) : Limiter :=
  if truncate now r.unit = l.currWindow then
    { l with currCounter := l.currCounter + 1 }
  else if truncate now r.unit - r.unit = l.currWindow then
    { prevWindow := l.currWindow, prevCounter := l.currCounter,
      currWindow := truncate now r.unit, currCounter := 0 }
  else
    { prevWindow := 0, prevCounter := 0,
      currWindow := truncate now r.unit, currCounter := 0 }

/-- prevWindowWeightedCounter from `Limiter.Allow`.  The Go source computes
`int64(float64(prevCounter) * (float64(overlap) / float64(unit)))` with
IEEE-754 float64 arithmetic; the embedding uses the exact integer
truncation `(prevCounter * overlap) / unit`, which agrees with the float64
computation on the magnitudes arising in the concrete scenarios below.
The possible divergence between the two for adversarial magnitudes is
precisely the floating-point question left unmodelled (see the results for
the numerical claim). -/
def prevWindowWeightedCounter (prevCounter overlap unit : Int) : Int :=
  (prevCounter * overlap) / unit

/-- prevWindowOverlap from `Limiter.Allow`: after the locked section,
`rule.unit - now.Sub(newCurrWindow)` where `newCurrWindow` is the updated
`l.currWindow`. -/
def Limiter.overlapAfter (l : Limiter) (r : Rule) (now : Int) : Int :=
  r.unit - (now - (l.advance r now).currWindow)

/-- activeNumRequests from `Limiter.Allow`: weighted previous-window
contribution plus the updated current-window counter. -/
def Limiter.activeEstimate (l : Limiter) (r : Rule) (now : Int) : Int :=
  prevWindowWeightedCounter (l.advance r now).prevCounter (l.overlapAfter r now) r.unit
    + (l.advance r now).currCounter

/-- Limiter.Allow from `limiter.go`: advance the windows, then decide.
Returns (allowed, prevWindowOverlap, updated state); the Go method mutates
the receiver in place, which the embedding returns as the third
component. -/
def Limiter.allow (l : Limiter) (r : Rule) (now : Int) : Bool × Int × Limiter :=
  (decide (l.activeEstimate r now < r.maxRequests), l.overlapAfter r now, l.advance r now)

/-- The `clientLimiterMap` as observed through `Load` and `Store`: a
mapping from client id to the limiter stored for it. -/
def Registry := String → Option Limiter

/-- The empty `sync.Map` (also the result of `ResetLimiter`). -/
def emptyRegistry : Registry := fun _ => none

/-- A `Store` on the registry. -/
def Registry.store (reg : Registry) (clientId : String) (l : Limiter) : Registry :=
  fun k => if k = clientId then some l else reg k

/-- AllowRequest from `limiter.go`, sequential semantics: fail open when no
rule is configured; otherwise load the limiter of the client (creating and
storing a fresh one on a miss) and run `Allow`.  Returns
(allowed, duration, updated registry); for an existing client the Go code
mutates the shared `Limiter` in place, which the updated registry
reflects. -/
def AllowRequest (rule : Option Rule) (reg : Registry) (clientId : String) (now : Int) :
    Bool × Int × Registry :=
  match rule with
  | none => (true, -1, reg)
  | some r =>
    ((((reg clientId).getD Limiter.init).allow r now).1,
     (((reg clientId).getD Limiter.init).allow r now).2.1,
     reg.store clientId (((reg clientId).getD Limiter.init).allow r now).2.2)

/-- A fixed client key used in concrete scenarios. -/
def clientA : String := "A"

/-- Run a sequence of `Allow` calls (one per request time) against the
limiter state of a single client. -/
def runTrace (r : Rule) (l : Limiter) (ts : List Int) : Limiter :=
  ts.foldl (fun s x => s.advance r x) l

/-- The admission decisions that a sequence of `Allow` calls produces. -/
def decisions (r : Rule) : Limiter → List Int → List Bool
  | _, [] => []
  | l, x :: ts => (l.allow r x).1 :: decisions r (l.advance r x) ts

/-- Number of admitted requests among a sequence of `Allow` calls. -/
def admittedCount (r : Rule) (l : Limiter) (ts : List Int) : Nat :=
  (decisions r l ts).count true

/-! Basic facts about `advance`. -/

/-- After `advance`, the current window is always the truncation of `now`,
in all three branches. -/
theorem advance_currWindow (l : Limiter) (r : Rule) (now : Int) :
    (l.advance r now).currWindow = truncate now r.unit := by
  unfold Limiter.advance
  by_cases h1 : truncate now r.unit = l.currWindow
  · simp [h1]
  · by_cases h2 : truncate now r.unit - r.unit = l.currWindow <;> simp [h1, h2]

/-- Branch equation: same window. -/
theorem advance_same (l : Limiter) (r : Rule) (now : Int)
    (h : truncate now r.unit = l.currWindow) :
    l.advance r now = ⟨l.prevWindow, l.prevCounter, l.currWindow, l.currCounter + 1⟩ := by
  unfold Limiter.advance
  rw [if_pos h]

/-- Branch equation: moved exactly one window. -/
theorem advance_roll (l : Limiter) (r : Rule) (now : Int)
    (h1 : truncate now r.unit ≠ l.currWindow)
    (h2 : truncate now r.unit - r.unit = l.currWindow) :
    l.advance r now = ⟨l.currWindow, l.currCounter, truncate now r.unit, 0⟩ := by
  unfold Limiter.advance
  rw [if_neg h1, if_pos h2]

/-- Branch equation: moved more than one window. -/
theorem advance_reset (l : Limiter) (r : Rule) (now : Int)
    (h1 : truncate now r.unit ≠ l.currWindow)
    (h2 : truncate now r.unit - r.unit ≠ l.currWindow) :
    l.advance r now = ⟨0, 0, truncate now r.unit, 0⟩ := by
  unfold Limiter.advance
  rw [if_neg h1, if_neg h2]

/-- The overlap computed by `Allow` is the time left in the window of
`now`. -/
theorem overlapAfter_eq (l : Limiter) (r : Rule) (now : Int) :
    l.overlapAfter r now = r.unit - now % r.unit := by
  unfold Limiter.overlapAfter
  rw [advance_currWindow]
  unfold truncate
  ring

/-- Counters stay non-negative across one advance. -/
theorem advance_nonneg (l : Limiter) (r : Rule) (now : Int)
    (h1 : 0 ≤ l.prevCounter) (h2 : 0 ≤ l.currCounter) :
    0 ≤ (l.advance r now).prevCounter ∧ 0 ≤ (l.advance r now).currCounter := by
  unfold Limiter.advance
  by_cases ha : truncate now r.unit = l.currWindow
  · simp [ha]
    omega
  · by_cases hb : truncate now r.unit - r.unit = l.currWindow
    · simp [ha, hb]
      omega
    · simp [ha, hb]

/-- Counters stay non-negative across a whole trace. -/
theorem runTrace_nonneg (r : Rule) (ts : List Int) :
    ∀ l : Limiter, 0 ≤ l.prevCounter → 0 ≤ l.currCounter →
      0 ≤ (runTrace r l ts).prevCounter ∧ 0 ≤ (runTrace r l ts).currCounter := by
  induction ts with
  | nil => exact fun l h1 h2 => ⟨h1, h2⟩
  | cons x ts ih =>
    intro l h1 h2
    have h := advance_nonneg l r x h1 h2
    exact ih (l.advance r x) h.1 h.2

/-- Calls that all fall inside the window the state is already tracking
only increment the current counter, one per call. -/
theorem runTrace_in_window (r : Rule) (W : Int) :
    ∀ xs : List Int, (∀ x ∈ xs, truncate x r.unit = W) →
      ∀ l : Limiter, l.currWindow = W →
        runTrace r l xs
          = ⟨l.prevWindow, l.prevCounter, l.currWindow, l.currCounter + xs.length⟩ := by
  intro xs
  induction xs with
  | nil =>
    intro _ l _
    obtain ⟨pw, pc, cw, cc⟩ := l
    simp [runTrace]
  | cons x xs ih =>
    intro hxs l hl
    have hx : truncate x r.unit = l.currWindow := by
      rw [hl]
      exact hxs x (by simp)
    have hstep : l.advance r x
        = ⟨l.prevWindow, l.prevCounter, l.currWindow, l.currCounter + 1⟩ :=
      advance_same l r x hx
    have hrest := ih (fun z hz => hxs z (by simp [hz])) (l.advance r x) (by rw [hstep, hl])
    show runTrace r (l.advance r x) xs = _
    rw [hrest, hstep]
    simp [Limiter.mk.injEq]
    ring

/-- A trace produces one decision per call. -/
theorem decisions_length (r : Rule) :
    ∀ (ts : List Int) (l : Limiter), (decisions r l ts).length = ts.length := by
  intro ts
  induction ts with
  | nil => intro l; rfl
  | cons x ts ih => intro l; simp [decisions, ih]

/-- At most as many requests are admitted as were made. -/
theorem admittedCount_le_length (r : Rule) (l : Limiter) (ts : List Int) :
    admittedCount r l ts ≤ ts.length := by
  unfold admittedCount
  calc (decisions r l ts).count true ≤ (decisions r l ts).length :=
        List.count_le_length true (decisions r l ts)
    _ = ts.length := decisions_length r ts l

/-- A call in the window the state tracks is rejected as soon as the
incremented counter reaches maxRequests, since the weighted previous
contribution is never negative. -/
theorem allow_rejects_of_counter_ge (l : Limiter) (r : Rule) (now : Int)
    (hu : 0 < r.unit) (hp : 0 ≤ l.prevCounter)
    (hcw : truncate now r.unit = l.currWindow)
    (hcc : r.maxRequests ≤ l.currCounter + 1) :
    (l.allow r now).1 = false := by
  have hstep : l.advance r now
      = ⟨l.prevWindow, l.prevCounter, l.currWindow, l.currCounter + 1⟩ :=
    advance_same l r now hcw
  have hmod0 : 0 ≤ now % r.unit := Int.emod_nonneg now (by omega)
  have hmodlt : now % r.unit < r.unit := Int.emod_lt_of_pos now hu
  have hov0 : 0 ≤ l.overlapAfter r now := by
    rw [overlapAfter_eq]
    omega
  have hw0 : 0 ≤ prevWindowWeightedCounter l.prevCounter (l.overlapAfter r now) r.unit := by
    unfold prevWindowWeightedCounter
    exact Int.ediv_nonneg (mul_nonneg hp hov0) (by omega)
  have hest : r.maxRequests ≤ l.activeEstimate r now := by
    unfold Limiter.activeEstimate
    rw [hstep]
    show r.maxRequests ≤
      prevWindowWeightedCounter l.prevCounter (l.overlapAfter r now) r.unit
        + (l.currCounter + 1)
    linarith [hw0, hcc]
  show decide (l.activeEstimate r now < r.maxRequests) = false
  simp only [decide_eq_false_iff_not, not_lt]
  exact hest

/-- Alignment of the previous window one unit below the current one is
preserved by one advance. -/
theorem advance_aligned (l : Limiter) (r : Rule) (now : Int)
    (h : l.prevWindow ≠ 0 → l.prevWindow = l.currWindow - r.unit) :
    (l.advance r now).prevWindow ≠ 0 →
      (l.advance r now).prevWindow = (l.advance r now).currWindow - r.unit := by
  unfold Limiter.advance
  by_cases ha : truncate now r.unit = l.currWindow
  · simpa [ha] using h
  · by_cases hb : truncate now r.unit - r.unit = l.currWindow
    · simp [ha, hb]
    · simp [ha, hb]

/-- Alignment of the previous window is preserved by a whole trace. -/
theorem runTrace_aligned (r : Rule) (ts : List Int) :
    ∀ l : Limiter, (l.prevWindow ≠ 0 → l.prevWindow = l.currWindow - r.unit) →
      ((runTrace r l ts).prevWindow ≠ 0 →
        (runTrace r l ts).prevWindow = (runTrace r l ts).currWindow - r.unit) := by
  induction ts with
  | nil => exact fun l h => h
  | cons x ts ih => exact fun l h => ih (l.advance r x) (advance_aligned l r x h)

/-- C1, evaluation at the failing input: in the spec example (rule 5 per
second, previous window counted 5, request 0.2s into the next window), the
code rolls the current window into the previous one but leaves the fresh
current counter at 0 instead of incrementing it to 1, so the active
estimate is 4, not 5, and the request is admitted, not rejected. -/
theorem c1_roll_example_admitted :
    Limiter.allow ⟨0, 0, 1000000000, 5⟩ ⟨5, 1000000000⟩ 2200000000
        = (true, 800000000, ⟨1000000000, 5, 2000000000, 0⟩) ∧
    Limiter.activeEstimate ⟨0, 0, 1000000000, 5⟩ ⟨5, 1000000000⟩ 2200000000 = 4 := by
  decide

/-- C4, counterexample: AddRule called with non-positive maxRequests and
unit succeeds, stores the invalid rule, and the previously stored rule is
replaced rather than remaining active; no error value exists in the Go
signature at all. -/
theorem c4_invalid_rule_replaces_prior :
    AddRule 0 0 (some ⟨5, 1000000000⟩) = some ⟨0, 0⟩ ∧
    AddRule 0 0 (some ⟨5, 1000000000⟩) ≠ some ⟨5, 1000000000⟩ := by
  decide

/-- C4, amended: AddRule performs no validation and reports no error; any
maxRequests and unit values, non-positive ones included, are stored and
unconditionally replace the prior rule. -/
theorem c4_addrule_no_validation (maxRequests unit : Int) (prior : Option Rule) :
    AddRule maxRequests unit prior = some ⟨maxRequests, unit⟩ := rfl

/-- C5: with no rule configured, AllowRequest returns admitted together
with duration -1 and leaves the registry untouched (no per-client state is
created or consulted). -/
theorem c5_no_rule_fail_open (reg : Registry) (clientId : String) (now : Int) :
    AllowRequest none reg clientId now = (true, -1, reg) := rfl

/-- C6, counterexample: an admitted request also carries the
window-overlap duration.  A fresh client under rule (5, 1s) at 2.2s is
admitted, and the returned duration is 0.8s, not an absent value. -/
theorem c6_admitted_returns_overlap :
    (AllowRequest (some ⟨5, 1000000000⟩) emptyRegistry clientA 2200000000).1 = true ∧
    (AllowRequest (some ⟨5, 1000000000⟩) emptyRegistry clientA 2200000000).2.1
        = 800000000 := by
  decide

/-- C6, amended: whenever a rule is active, AllowRequest returns the
window-overlap-remaining duration on every call, admitted or rejected
alike. -/
theorem c6_duration_returned_on_every_call (r : Rule) (reg : Registry) (clientId : String)
    (now : Int) :
    (AllowRequest (some r) reg clientId now).2.1
        = r.unit - (now - truncate now r.unit) := by
  simp [AllowRequest, Limiter.allow, overlapAfter_eq]
  unfold truncate
  ring

/-- C9: with a rule of positive unit active, the duration returned by
AllowRequest equals rule.unit - (now - truncate(now, rule.unit)) and lies
in the half-open interval (0, rule.unit]. -/
theorem c9_duration_in_unit_interval (r : Rule) (reg : Registry) (clientId : String)
    (now : Int) (hu : 0 < r.unit) :
    (AllowRequest (some r) reg clientId now).2.1 = r.unit - (now - truncate now r.unit) ∧
    0 < (AllowRequest (some r) reg clientId now).2.1 ∧
    (AllowRequest (some r) reg clientId now).2.1 ≤ r.unit := by
  have hmod0 : 0 ≤ now % r.unit := Int.emod_nonneg now (by omega)
  have hmodlt : now % r.unit < r.unit := Int.emod_lt_of_pos now hu
  have hdur : (AllowRequest (some r) reg clientId now).2.1 = r.unit - now % r.unit := by
    simp [AllowRequest, Limiter.allow, overlapAfter_eq]
  refine ⟨?_, ?_, ?_⟩
  · rw [hdur]; unfold truncate; ring
  · rw [hdur]; omega
  · rw [hdur]; omega

/-- C9, witness at rule (5, 1s), a fresh registry and time 2.2s. -/
theorem c9_duration_in_unit_interval_witness :
    (0 : Int) < 1000000000 ∧
    ((AllowRequest (some ⟨5, 1000000000⟩) emptyRegistry clientA 2200000000).2.1
        = 1000000000 - (2200000000 - truncate 2200000000 1000000000) ∧
      0 < (AllowRequest (some ⟨5, 1000000000⟩) emptyRegistry clientA 2200000000).2.1 ∧
      (AllowRequest (some ⟨5, 1000000000⟩) emptyRegistry clientA 2200000000).2.1
        ≤ 1000000000) :=
  ⟨by decide, c9_duration_in_unit_interval ⟨5, 1000000000⟩ emptyRegistry clientA
    2200000000 (by decide)⟩

/-- C10: a never-seen client under an active rule with maxRequests at
least 1 has its first request admitted, and the active estimate computed
for the fresh state is 0.  The hypothesis that `now` lies at least two
units after the zero time always holds for a real clock: Go durations are
bounded by 2^63 nanoseconds (about 292 years) while `time.Now()` is more
than two millennia after the zero time (year 1). -/
theorem c10_first_request_admitted (r : Rule) (reg : Registry) (clientId : String)
    (now : Int) (hnew : reg clientId = none) (hM : 1 ≤ r.maxRequests) (hu : 0 < r.unit)
    (hnow : 2 * r.unit ≤ now) :
    (AllowRequest (some r) reg clientId now).1 = true ∧
    Limiter.activeEstimate Limiter.init r now = 0 := by
  have hmod0 : 0 ≤ now % r.unit := Int.emod_nonneg now (by omega)
  have hmodlt : now % r.unit < r.unit := Int.emod_lt_of_pos now hu
  have h1 : truncate now r.unit ≠ Limiter.init.currWindow := by
    unfold truncate Limiter.init
    simp
    omega
  have h2 : truncate now r.unit - r.unit ≠ Limiter.init.currWindow := by
    unfold truncate Limiter.init
    simp
    omega
  have hadv : Limiter.init.advance r now = ⟨0, 0, truncate now r.unit, 0⟩ :=
    advance_reset _ _ _ h1 h2
  have hest : Limiter.init.activeEstimate r now = 0 := by
    unfold Limiter.activeEstimate prevWindowWeightedCounter Limiter.overlapAfter
    rw [hadv]
    simp
  refine ⟨?_, hest⟩
  simp [AllowRequest, hnew, Limiter.allow, hest]
  omega

/-- C2: if under a rule with maxRequests at least 1 a client made the
calls ts2, all falling in the aligned window of time t, and exactly
maxRequests of them were admitted, then the further call at t (before the
window has ended) is rejected, whatever earlier history ts1 the client
had. -/
theorem c2_window_exhausted_rejects (r : Rule) (ts1 ts2 : List Int) (t : Int)
    (hu : 0 < r.unit) (hM : 1 ≤ r.maxRequests)
    (hw : ∀ x ∈ ts2, truncate x r.unit = truncate t r.unit)
    (hadm : (admittedCount r (runTrace r Limiter.init ts1) ts2 : Int) = r.maxRequests) :
    (Limiter.allow (runTrace r (runTrace r Limiter.init ts1) ts2) r t).1 = false := by
  have hnn : 0 ≤ (runTrace r Limiter.init ts1).prevCounter ∧
      0 ≤ (runTrace r Limiter.init ts1).currCounter :=
    runTrace_nonneg r ts1 Limiter.init (by simp [Limiter.init]) (by simp [Limiter.init])
  have hlenN := admittedCount_le_length r (runTrace r Limiter.init ts1) ts2
  have hlen : r.maxRequests ≤ (ts2.length : Int) := by omega
  cases ts2 with
  | nil =>
    simp at hlen
    omega
  | cons y ys =>
    have hy : truncate y r.unit = truncate t r.unit := hw y (by simp)
    have hcw1 : ((runTrace r Limiter.init ts1).advance r y).currWindow
        = truncate t r.unit := by
      rw [advance_currWindow, hy]
    have hnn1 := advance_nonneg (runTrace r Limiter.init ts1) r y hnn.1 hnn.2
    have hs2 := runTrace_in_window r (truncate t r.unit) ys
      (fun z hz => hw z (by simp [hz])) ((runTrace r Limiter.init ts1).advance r y) hcw1
    show (Limiter.allow
        (runTrace r ((runTrace r Limiter.init ts1).advance r y) ys) r t).1 = false
    rw [hs2]
    refine allow_rejects_of_counter_ge _ r t hu ?_ ?_ ?_
    · exact hnn1.1
    · exact hcw1.symm
    · show r.maxRequests ≤
        ((runTrace r Limiter.init ts1).advance r y).currCounter + (ys.length : Int) + 1
      have h2 := hnn1.2
      simp at hlen
      omega

/-- C2, witness: rule 2 per 10ns, fresh client, calls at 21 and 22 are
admitted and the call at 23 rejected, so exactly 2 are admitted in the
window [20, 30); the further call at 25 is rejected. -/
theorem c2_window_exhausted_rejects_witness :
    ((0 : Int) < 10 ∧ (1 : Int) ≤ 2 ∧
      (∀ x ∈ [21, 22, 23], truncate x 10 = truncate 25 10) ∧
      (admittedCount ⟨2, 10⟩ (runTrace ⟨2, 10⟩ Limiter.init []) [21, 22, 23] : Int) = 2) ∧
    (Limiter.allow (runTrace ⟨2, 10⟩ (runTrace ⟨2, 10⟩ Limiter.init []) [21, 22, 23])
        ⟨2, 10⟩ 25).1 = false :=
  ⟨⟨by decide, by decide, by decide, by decide⟩,
   c2_window_exhausted_rejects ⟨2, 10⟩ [] [21, 22, 23] 25 (by decide) (by decide)
     (by decide) (by decide)⟩

/-- C8: after an Allow call at time now, on any prior call history, the
current window start is the unit-aligned truncation of now (which equals
unit * (now / unit) for a positive unit), and the previous window start,
whenever it is non-zero, lies exactly one unit below the current window
start. -/
theorem c8_window_alignment (r : Rule) (ts : List Int) (now : Int) (_hu : 0 < r.unit) :
    ((runTrace r Limiter.init ts).advance r now).currWindow = truncate now r.unit ∧
    truncate now r.unit = r.unit * (now / r.unit) ∧
    (((runTrace r Limiter.init ts).advance r now).prevWindow ≠ 0 →
      ((runTrace r Limiter.init ts).advance r now).prevWindow
        = ((runTrace r Limiter.init ts).advance r now).currWindow - r.unit) := by
  refine ⟨advance_currWindow _ _ _, ?_, ?_⟩
  · have h := Int.ediv_add_emod now r.unit
    unfold truncate
    linarith [h]
  · exact advance_aligned _ r now (runTrace_aligned r ts Limiter.init (by simp [Limiter.init]))

/-- C8, witness at rule (5, 10ns), history [15, 21] and a call at 23. -/
theorem c8_window_alignment_witness :
    (0 : Int) < 10 ∧
    (((runTrace ⟨5, 10⟩ Limiter.init [15, 21]).advance ⟨5, 10⟩ 23).currWindow
        = truncate 23 10 ∧
      truncate 23 10 = 10 * (23 / 10) ∧
      (((runTrace ⟨5, 10⟩ Limiter.init [15, 21]).advance ⟨5, 10⟩ 23).prevWindow ≠ 0 →
        ((runTrace ⟨5, 10⟩ Limiter.init [15, 21]).advance ⟨5, 10⟩ 23).prevWindow
          = ((runTrace ⟨5, 10⟩ Limiter.init [15, 21]).advance ⟨5, 10⟩ 23).currWindow
            - 10)) :=
  ⟨by decide, c8_window_alignment ⟨5, 10⟩ [15, 21] 23 (by decide)⟩

/-- C10, witness at rule (5, 1s), a fresh registry and time 2.2s. -/
theorem c10_first_request_admitted_witness :
    (emptyRegistry clientA = none ∧ (1 : Int) ≤ 5 ∧ (0 : Int) < 1000000000 ∧
      2 * (1000000000 : Int) ≤ 2200000000) ∧
    ((AllowRequest (some ⟨5, 1000000000⟩) emptyRegistry clientA 2200000000).1 = true ∧
      Limiter.activeEstimate Limiter.init ⟨5, 1000000000⟩ 2200000000 = 0) :=
  ⟨⟨rfl, by decide, by decide, by decide⟩,
   c10_first_request_admitted ⟨5, 1000000000⟩ emptyRegistry clientA 2200000000 rfl
     (by decide) (by decide) (by decide)⟩

/-! An interleaving model of the registry access pattern in AllowRequest.
The Go code reads `clientLimiterMap.Load(clientId)` and, on a miss,
allocates `&Limiter{}` and calls `clientLimiterMap.Store(clientId, l)`:
two separate atomic map operations with caller-local work in between.
Limiter cells are given identities by their allocation index so that the
model can observe how many distinct instances exist and which one each
caller used. -/

/-- Program counter of one caller inside the get-or-create section of
AllowRequest: about to Load; Load missed and about to allocate and Store;
holding a reference (by cell index) and about to run Allow; finished with
the cell index the caller operated on. -/
inductive CallerPC where
  | atLoad : CallerPC
  | atStore : CallerPC
  | atAllow : Nat → CallerPC
  | finished : Nat → CallerPC
  deriving DecidableEq

/-- Shared state of the interleaving model: the allocated Limiter cells
(the cell index is the object identity), the registry entry for the one
contended key, and the program counter of each caller. -/
structure RaceState where
  cells : List Limiter
  slot : Option Nat
  pcs : List CallerPC
  deriving DecidableEq

/-- One atomic step of caller i.  The sync.Map Load and Store are each
atomic; the allocation between them is caller-local and folded into the
Store step; Allow runs under the per-cell mutex and is therefore one
atomic step on the cell the caller holds. -/
def raceStep (r : Rule) (now : Int) (s : RaceState) (i : Nat) : RaceState :=
  match s.pcs[i]? with
  | none => s
  | some CallerPC.atLoad =>
    match s.slot with
    | some id => { s with pcs := s.pcs.set i (CallerPC.atAllow id) }
    | none => { s with pcs := s.pcs.set i CallerPC.atStore }
  | some CallerPC.atStore =>
    { s with cells := s.cells ++ [Limiter.init],
             slot := some s.cells.length,
             pcs := s.pcs.set i (CallerPC.atAllow s.cells.length) }
  | some (CallerPC.atAllow id) =>
    { s with cells := s.cells.set id ((s.cells[id]?.getD Limiter.init).advance r now),
             pcs := s.pcs.set i (CallerPC.finished id) }
  | some (CallerPC.finished _) => s

/-- Run a schedule (a list of caller indices) from a state. -/
def raceRun (r : Rule) (now : Int) (s : RaceState) (sched : List Nat) : RaceState :=
  sched.foldl (raceStep r now) s

/-- Initial state for two concurrent AllowRequest callers that share one
new client key: no cell allocated, empty registry entry, both callers
about to Load. -/
def raceInit : RaceState := ⟨[], none, [CallerPC.atLoad, CallerPC.atLoad]⟩

/-- C3: the get-or-create in AllowRequest is a Load-then-Store pair, not
an atomic insert-if-absent.  Under the interleaving in which both callers
Load before either Stores, two distinct Limiter instances are allocated
for the single key, each caller operates on its own instance, and the
entry stored by the first caller is overwritten by the second, so the
update of the first caller is invisible to every later reader of the
registry. -/
theorem c3_load_store_race :
    (raceRun ⟨5, 10⟩ 25 raceInit [0, 1, 0, 1, 0, 1]).cells.length = 2 ∧
    (raceRun ⟨5, 10⟩ 25 raceInit [0, 1, 0, 1, 0, 1]).pcs
        = [CallerPC.finished 0, CallerPC.finished 1] ∧
    (raceRun ⟨5, 10⟩ 25 raceInit [0, 1, 0, 1, 0, 1]).slot = some 1 := by
  decide

end Bkp1
